import Mathlib

/-!
Verification development for the mlx5fw firmware tool.

The embedding models the repository's core: the 16-bit checksum engine
contract, the bit-packed ITOC entry codec (`ItocEntry`), the firmware
buffer operations (`write_bytes`), the ITOC scanner (`read_itoc`), and the
section operations (`dump_sections`, `dump_code`, `replace_section`).

Bytes are modelled as `Nat` values (< 256 in well-formed images), byte
buffers as `List Nat`.  Fallible Rust code (`anyhow::Result`) is modelled
with an explicit outcome type `RunResult` that distinguishes `ok`,
`err` (a returned `Err` value) and `panic` (an out-of-bounds slice panic).
-/

namespace Mlx5fw

set_option maxRecDepth 10000

/-- Modelled from the spec: the repository's `crc` module (`src/crc.rs`,
referenced by `mod crc;` and by `crate::crc::calc_crc16`) is not part of
the analyzed sources.  The spec fixes only the call contract: a
deterministic 16-bit checksum taking a running accumulator seed and a
byte slice, composable across successive calls.  We model one step of the
general CRC as a standard MSB-first shift-and-xor round over one byte;
the exact hardware polynomial is irrelevant to every property proved
below. -/
def crc16_round (acc : Nat) : Nat :=
  if acc < 0x8000 then (acc * 2) % 0x10000 else ((acc * 2) ^^^ 0x1021) % 0x10000

/-- Modelled from the spec: one byte step of the general 16-bit CRC. -/
def crc16_step (acc b : Nat) : Nat :=
  (List.range 8).foldl (fun a _ => crc16_round a) ((acc ^^^ (b * 256)) % 0x10000)

/-- Modelled from the spec: `crc::calc_crc16(seed, bytes)`; a fold of the
per-byte step over the slice, seeded with the accumulator, so that
`calc_crc16 (calc_crc16 seed a) b = calc_crc16 seed (a ++ b)` as the spec
requires of contiguous regions. -/
def calc_crc16 (seed : Nat) (bytes : List Nat) : Nat :=
  bytes.foldl crc16_step seed

/-- Modelled from the spec: one shift round of the hardware per-line CRC,
with a (hardware-defined, here representative) different polynomial. -/
def hwcrc_round (acc : Nat) : Nat :=
  if acc < 0x8000 then (acc * 2) % 0x10000 else ((acc * 2) ^^^ 0x100b) % 0x10000

/-- Modelled from the spec: one byte step of the hardware per-line CRC. -/
def hwcrc_step (acc b : Nat) : Nat :=
  (List.range 8).foldl (fun a _ => hwcrc_round a) ((acc ^^^ (b * 256)) % 0x10000)

/-- Modelled from the spec: `crc::calc_hwcrc(seed, bytes)`, the hardware
per-cache-line checksum used only for cache-line protected sections. -/
def calc_hwcrc (seed : Nat) (bytes : List Nat) : Nat :=
  bytes.foldl hwcrc_step seed

/-- Big-endian 2-byte encoding of a 16-bit value. -/
def be16 (n : Nat) : List Nat := [n / 256 % 256, n % 256]

/-- Big-endian 3-byte encoding of a 24-bit value. -/
def be24 (n : Nat) : List Nat := [n / 65536 % 256, n / 256 % 256, n % 256]

/-- Big-endian 4-byte encoding of a 32-bit value. -/
def be32 (n : Nat) : List Nat :=
  [n / 16777216 % 256, n / 65536 % 256, n / 256 % 256, n % 256]

/-- Little-endian 2-byte encoding of a 16-bit value, as produced by
`u16::to_le_bytes` in `replace_section`. -/
def le16 (n : Nat) : List Nat := [n % 256, n / 256 % 256]

/-- The ITOC entry-type enumeration (`ItocEntryType` in
`src/structures/itoc.rs`): 25 named section kinds plus the deku
`id_pat = "_"` catch-all `Unknown` carrying the raw byte. -/
inductive ItocEntryType where
  | PciCode
  | MainCode
  | PcieLinkCode
  | IronPrepCode
  | PostIronBootCode
  | UpgradeCode
  | HwBootCfg
  | HwMainCfg
  | PhyUcCode
  | PhyUcConsts
  | PciePhyUcCode
  | ImageInfo
  | FwBootCfg
  | FwMainCfg
  | RomCode
  | ResetInfo
  | DbgFwIni
  | DbgFwParams
  | ImageSignature256
  | PublicKeys2048
  | ForbiddenVersions
  | ImageSignature512
  | PublicKeys4096
  | CrDumpMaskData
  | ProgrammableHwFw
  | Unknown (id : Nat)
deriving DecidableEq

/-- Encoding of an entry type to its one-byte deku id (the `id = 0x..`
attributes); the `Unknown` variant writes its raw byte back. -/
def ItocEntryType.toByte : ItocEntryType → Nat
  | .PciCode => 0x02
  | .MainCode => 0x03
  | .PcieLinkCode => 0x04
  | .IronPrepCode => 0x05
  | .PostIronBootCode => 0x06
  | .UpgradeCode => 0x07
  | .HwBootCfg => 0x08
  | .HwMainCfg => 0x09
  | .PhyUcCode => 0x0a
  | .PhyUcConsts => 0x0b
  | .PciePhyUcCode => 0x0c
  | .ImageInfo => 0x10
  | .FwBootCfg => 0x11
  | .FwMainCfg => 0x12
  | .RomCode => 0x18
  | .ResetInfo => 0x20
  | .DbgFwIni => 0x30
  | .DbgFwParams => 0x32
  | .ImageSignature256 => 0xa0
  | .PublicKeys2048 => 0xa1
  | .ForbiddenVersions => 0xa2
  | .ImageSignature512 => 0xa3
  | .PublicKeys4096 => 0xa4
  | .CrDumpMaskData => 0xe9
  | .ProgrammableHwFw => 0xeb
  | .Unknown id => id % 256

/-- Decoding of a one-byte deku id to an entry type; every unrecognized
byte maps to `Unknown` via the `id_pat = "_"` catch-all, so decoding is
total. -/
def ItocEntryType.ofByte (b : Nat) : ItocEntryType :=
  if b = 0x02 then .PciCode
  else if b = 0x03 then .MainCode
  else if b = 0x04 then .PcieLinkCode
  else if b = 0x05 then .IronPrepCode
  else if b = 0x06 then .PostIronBootCode
  else if b = 0x07 then .UpgradeCode
  else if b = 0x08 then .HwBootCfg
  else if b = 0x09 then .HwMainCfg
  else if b = 0x0a then .PhyUcCode
  else if b = 0x0b then .PhyUcConsts
  else if b = 0x0c then .PciePhyUcCode
  else if b = 0x10 then .ImageInfo
  else if b = 0x11 then .FwBootCfg
  else if b = 0x12 then .FwMainCfg
  else if b = 0x18 then .RomCode
  else if b = 0x20 then .ResetInfo
  else if b = 0x30 then .DbgFwIni
  else if b = 0x32 then .DbgFwParams
  else if b = 0xa0 then .ImageSignature256
  else if b = 0xa1 then .PublicKeys2048
  else if b = 0xa2 then .ForbiddenVersions
  else if b = 0xa3 then .ImageSignature512
  else if b = 0xa4 then .PublicKeys4096
  else if b = 0xe9 then .CrDumpMaskData
  else if b = 0xeb then .ProgrammableHwFw
  else .Unknown b

/-- `ItocEntryType::is_code`: the six code-classified section kinds. -/
def ItocEntryType.is_code : ItocEntryType → Bool
  | .PciCode => true
  | .MainCode => true
  | .PcieLinkCode => true
  | .IronPrepCode => true
  | .PostIronBootCode => true
  | .UpgradeCode => true
  | _ => false

/-- The `Display` impl for `ItocEntryType` (section type names used in
dump file names).  The `Unknown` case appends the raw id formatted
`{:02x}` (two lowercase hex digits for a `u8`). -/
def hexDigit (n : Nat) : Char :=
  if n < 10 then Char.ofNat (48 + n) else Char.ofNat (87 + n)

/-- Lowercase hexadecimal rendering of a byte, as `{:02x}` renders a
value below 0x100. -/
def hex2 (n : Nat) : String :=
  String.mk [hexDigit (n / 16 % 16), hexDigit (n % 16)]

/-- Lowercase 8-digit hexadecimal rendering, as `{:08x}` renders a value
below 2^32. -/
def hex8 (n : Nat) : String :=
  String.mk ((List.range 8).map fun i => hexDigit (n / 16 ^ (7 - i) % 16))

/-- Section type display name, following the `Display` impl. -/
def ItocEntryType.typeName : ItocEntryType → String
  | .PciCode => "PCI_CODE"
  | .MainCode => "MAIN_CODE"
  | .PcieLinkCode => "PCIE_LINK_CODE"
  | .IronPrepCode => "IRON_PREP_CODE"
  | .PostIronBootCode => "POST_IRON_BOOT_CODE"
  | .UpgradeCode => "UPGRADE_CODE"
  | .HwBootCfg => "HW_BOOT_CFG"
  | .HwMainCfg => "HW_MAIN_CFG"
  | .PhyUcCode => "PHY_UC_CODE"
  | .PhyUcConsts => "PHY_UC_CONSTS"
  | .PciePhyUcCode => "PCIE_PHY_UC_CODE"
  | .ImageInfo => "IMAGE_INFO"
  | .FwBootCfg => "FW_BOOT_CFG"
  | .FwMainCfg => "FW_MAIN_CFG"
  | .RomCode => "ROM_CODE"
  | .ResetInfo => "RESET_INFO"
  | .DbgFwIni => "DBG_FW_INI"
  | .DbgFwParams => "DBG_FW_PARAMS"
  | .ImageSignature256 => "IMAGE_SIGNATURE_256"
  | .PublicKeys2048 => "PUBLIC_KEYS_2048"
  | .ForbiddenVersions => "FORBIDDEN_VERSIONS"
  | .ImageSignature512 => "IMAGE_SIGNATURE_512"
  | .PublicKeys4096 => "PUBLIC_KEYS_4096"
  | .CrDumpMaskData => "CRDUMP_MASK_DATA"
  | .ProgrammableHwFw => "PROGRAMMABLE_HW_FW"
  | .Unknown id => "UNKNOWN_SECTION_" ++ hex2 id

/-- The 32-byte bit-packed ITOC entry record (`ItocEntry` in
`src/structures/itoc.rs`), with the deku field widths:
entry_type 8 bits, size 24, zipped_image 1, cache_line_crc 1,
load_address 30, entry_point 32, 4 pad bytes + 16 pad bits, version 16,
flash_addr 32, encrypted_section 1, 7 pad bits, crc 8, section_crc 16,
16 pad bits, itoc_entry_crc 16. -/
structure ItocEntry where
  entry_type : ItocEntryType
  size : Nat
  zipped_image : Bool
  cache_line_crc : Bool
  load_address : Nat
  entry_point : Nat
  version : Nat
  flash_addr : Nat
  encrypted_section : Bool
  crc : Nat
  section_crc : Nat
  itoc_entry_crc : Nat
deriving DecidableEq

/-- Big-endian, bit-packed encoding of an ITOC entry (`DekuWrite` on
`ItocEntry`): exactly 32 bytes, padding bits written as zero. -/
def ItocEntry.toBytes (e : ItocEntry) : List Nat :=
  [e.entry_type.toByte] ++ be24 (e.size % 2 ^ 24) ++
  be32 ((cond e.zipped_image 1 0) * 2 ^ 31 + (cond e.cache_line_crc 1 0) * 2 ^ 30 +
    e.load_address % 2 ^ 30) ++
  be32 (e.entry_point % 2 ^ 32) ++
  [0, 0, 0, 0] ++ [0, 0] ++ be16 (e.version % 2 ^ 16) ++
  be32 (e.flash_addr % 2 ^ 32) ++
  [(cond e.encrypted_section 1 0) * 128] ++ [e.crc % 256] ++
  be16 (e.section_crc % 2 ^ 16) ++
  [0, 0] ++ be16 (e.itoc_entry_crc % 2 ^ 16)

/-- Field extraction from a decoded 32-byte slot (`DekuRead` on
`ItocEntry`), reading the packed fields sequentially; callers guarantee
at least 32 bytes (see `ItocEntry.fromBytes`), trailing bytes are left
unread.  Padding bytes/bits (bytes 12–17, the low 7 bits of byte 24 and
bytes 28–29) are skipped. -/
def ItocEntry.ofBytes : List Nat → ItocEntry
  | b0 :: b1 :: b2 :: b3 :: b4 :: b5 :: b6 :: b7 :: b8 :: b9 :: b10 :: b11 ::
    _ :: _ :: _ :: _ :: _ :: _ :: b18 :: b19 :: b20 :: b21 :: b22 :: b23 ::
    b24 :: b25 :: b26 :: b27 :: _ :: _ :: b30 :: b31 :: _ =>
    { entry_type := ItocEntryType.ofByte b0
      size := b1 * 65536 + b2 * 256 + b3
      zipped_image := (b4 / 128) % 2 == 1
      cache_line_crc := (b4 / 64) % 2 == 1
      load_address := (b4 % 64) * 2 ^ 24 + b5 * 2 ^ 16 + b6 * 256 + b7
      entry_point := b8 * 2 ^ 24 + b9 * 2 ^ 16 + b10 * 256 + b11
      version := b18 * 256 + b19
      flash_addr := b20 * 2 ^ 24 + b21 * 2 ^ 16 + b22 * 256 + b23
      encrypted_section := (b24 / 128) % 2 == 1
      crc := b25
      section_crc := b26 * 256 + b27
      itoc_entry_crc := b30 * 256 + b31 }
  | _ => ⟨.Unknown 0, 0, false, false, 0, 0, 0, 0, false, 0, 0, 0⟩

/-- Deku decode of an ITOC entry from a byte slice
(`ItocEntry::from_bytes`): fails only when fewer than the record's 32
bytes are available; every field read is otherwise total (the entry-type
byte always maps to a variant through the `Unknown` catch-all). -/
def ItocEntry.fromBytes (b : List Nat) : Option ItocEntry :=
  if 32 ≤ b.length then some (ItocEntry.ofBytes b) else none

/-- `ItocEntry::calc_itoc_entry_crc`: the general CRC over the first
0x1e bytes of the entry's own encoding, seeded with 0. -/
def ItocEntry.calc_itoc_entry_crc (e : ItocEntry) : Nat :=
  calc_crc16 0x0000 (e.toBytes.take 0x1e)

/-- Well-formedness of an in-memory entry: every field fits its declared
bit width and the entry type is canonically represented (the `Unknown`
variant only carries codes outside the 25 recognized ids).  Entries
produced by decoding always satisfy this. -/
def ItocEntry.WF (e : ItocEntry) : Prop :=
  e.size < 2 ^ 24 ∧ e.load_address < 2 ^ 30 ∧ e.entry_point < 2 ^ 32 ∧
  e.version < 2 ^ 16 ∧ e.flash_addr < 2 ^ 32 ∧ e.crc < 2 ^ 8 ∧
  e.section_crc < 2 ^ 16 ∧ e.itoc_entry_crc < 2 ^ 16 ∧
  ItocEntryType.ofByte e.entry_type.toByte = e.entry_type

instance (e : ItocEntry) : Decidable e.WF := by
  unfold ItocEntry.WF; infer_instance

/-- Slicing a byte buffer into consecutive chunks of `n` bytes, the last
chunk possibly short, as Rust's `slice::chunks(n)`.  The recursion is
bounded by an explicit fuel argument (the list length suffices for any
positive `n`) so that the definition stays structurally recursive and
kernel-reducible. -/
def chunksAux (n : Nat) : Nat → List Nat → List (List Nat)
  | _, [] => []
  | 0, _ => []
  | fuel + 1, l => l.take n :: chunksAux n fuel (l.drop n)

/-- Rust `slice::chunks(n)` over a byte buffer. -/
def chunks (n : Nat) (l : List Nat) : List (List Nat) :=
  chunksAux n l.length l

/-- The cache-line re-encoding of replacement content performed by
`replace_section` when the entry's `cache_line_crc` flag is set and
repair is not suppressed: chunk into 0x40-byte lines (a final short line
is processed as its own line), append two zero bytes to each line,
compute the hardware CRC over the padded line, and append it with
`u16::to_le_bytes`. -/
def encode_cache_lines (content : List Nat) : List Nat :=
  ((chunks 0x40 content).map fun line =>
    line ++ [0x00, 0x00] ++
      le16 (calc_hwcrc 0x0000 (line ++ [0x00, 0x00]))).flatten

/-- The cache-line stripping loop in `dump_code`: walk the payload in
0x44-byte chunks and keep the leading 0x40 bytes of each complete chunk
(a final partial chunk contributes nothing). -/
def strip_cache_lines (content : List Nat) : List Nat :=
  ((chunks 0x44 content).filterMap fun c =>
    if c.length = 0x44 then some (c.take 0x40) else none).flatten

/-- Outcome of running a fallible Rust operation: a returned `Ok` value,
a returned `Err` with its message, or a slice-indexing panic. -/
inductive RunResult (α : Type) where
  | ok : α → RunResult α
  | err : String → RunResult α
  | panic : RunResult α
deriving DecidableEq

/-- `FirmwareStructure::write_bytes`: the bounds-checked in-place
overwrite of `value.len()` bytes at `offset`.  The guard is the source's
strict `self.0 + value.len() < firmware.len()`; on failure the `ensure!`
returns an error before any byte is touched. -/
def write_bytes (offset : Nat) (value fw : List Nat) : Except String (List Nat) :=
  if offset + value.length < fw.length then
    .ok (fw.take offset ++ value ++ fw.drop (offset + value.length))
  else
    .error "Firmware structure out of bounds"

/-- The 32-byte all-0xFF end-of-table sentinel slot. -/
def sentinel : List Nat := List.replicate 32 0xff

/-- The 32-byte slot at `offset` in the image. -/
def slotBytes (fw : List Nat) (offset : Nat) : List Nat :=
  (fw.drop offset).take 32

/-- One step of `Firmware::read_itoc`'s unbounded `for offset in
(0x4020..).step_by(32)` loop, with explicit fuel standing in for the
unbounded iteration: slicing `self[offset..offset+32]` panics when the
slot is not fully inside the buffer; an all-0xFF slot stops the scan; any
other slot is decoded (a decode failure would propagate as an error) and
prepended to the rest of the scan.  Exhausted fuel is modelled as
`panic`, which the top-level fuel choice makes unreachable. -/
def read_itoc_aux (fw : List Nat) : Nat → Nat → RunResult (List (Nat × ItocEntry))
  | 0, _ => .panic
  | fuel + 1, offset =>
    if offset + 32 ≤ fw.length then
      if slotBytes fw offset = sentinel then .ok []
      else
        match ItocEntry.fromBytes (slotBytes fw offset) with
        | some e =>
          match read_itoc_aux fw fuel (offset + 32) with
          | .ok rest => .ok ((offset, e) :: rest)
          | .err s => .err s
          | .panic => .panic
        | none => .err "decode error"
    else .panic

/-- `Firmware::read_itoc`: scan 32-byte slots from fixed offset 0x4020,
collecting decoded entries paired with their absolute offsets, until the
sentinel.  The loop runs at most once per 32 bytes of buffer, so
`fw.length + 1` steps of fuel always suffice. -/
def read_itoc (fw : List Nat) : RunResult (List (Nat × ItocEntry)) :=
  read_itoc_aux fw (fw.length + 1) 0x4020

/-- The per-section dump file name used by `dump_sections`:
`format!("{:08x}_{}", itoc_entry.flash_addr, itoc_entry.entry_type)`. -/
def dump_section_name (e : ItocEntry) : String :=
  hex8 e.flash_addr ++ "_" ++ e.entry_type.typeName

/-- The per-section dump file name used by `dump_code`:
`format!("{:08x}_{}", itoc_entry.load_address, itoc_entry.entry_type)`. -/
def dump_code_name (e : ItocEntry) : String :=
  hex8 e.load_address ++ "_" ++ e.entry_type.typeName

/-- The per-entry loop body of `dump_sections`: slice the `size`-byte
payload at `flash_addr` (`firmware.slice` panics when the window is out
of bounds) and emit one file per entry. -/
def dump_sections_go (fw : List Nat) : List (Nat × ItocEntry) → RunResult (List (String × List Nat))
  | [] => .ok []
  | (_, e) :: rest =>
    if e.flash_addr + e.size ≤ fw.length then
      match dump_sections_go fw rest with
      | .ok out => .ok ((dump_section_name e, (fw.drop e.flash_addr).take e.size) :: out)
      | .err s => .err s
      | .panic => .panic
    else .panic

/-- `dump_sections`: for every scanned entry, one file named by flash
address and type, containing the raw payload.  Modelled as the list of
(file name, file content) pairs written. -/
def dump_sections (fw : List Nat) : RunResult (List (String × List Nat)) :=
  match read_itoc fw with
  | .err s => .err s
  | .panic => .panic
  | .ok itoc => dump_sections_go fw itoc

/-- The per-entry loop body of `dump_code`: only code-classified entries
are dumped; when `cache_line_crc` is set, the per-line checksums are
stripped, otherwise the payload is copied verbatim. -/
def dump_code_go (fw : List Nat) : List (Nat × ItocEntry) → RunResult (List (String × List Nat))
  | [] => .ok []
  | (_, e) :: rest =>
    if e.entry_type.is_code then
      if e.flash_addr + e.size ≤ fw.length then
        let content := (fw.drop e.flash_addr).take e.size
        match dump_code_go fw rest with
        | .ok out =>
          .ok ((dump_code_name e,
            if e.cache_line_crc then strip_cache_lines content else content) :: out)
        | .err s => .err s
        | .panic => .panic
      else .panic
    else dump_code_go fw rest

/-- `dump_code`: one file per scanned code-classified entry, named by
load address and type. -/
def dump_code (fw : List Nat) : RunResult (List (String × List Nat)) :=
  match read_itoc fw with
  | .err s => .err s
  | .panic => .panic
  | .ok itoc => dump_code_go fw itoc

/-- The argument record of the `replacesection` subcommand
(`CliReplaceSection`), with the replacement file's bytes inlined as
`section_content`. -/
structure CliReplaceSection where
  no_update_itoc : Bool
  no_fix_cache_line_crc : Bool
  section_index : Nat
  section_content : List Nat
deriving DecidableEq

/-- The tail of `replace_section` after the section bytes have been
written: recompute `section_crc` over the full declared window of the
updated buffer followed by a 2-byte zero pad (`firmware.slice_ptr` /
`read_bytes` panics when the window exceeds the buffer), recompute
`itoc_entry_crc` via `update()`, and write the re-encoded entry record
back to its 32-byte slot.  Returns the final buffer together with the
entry record that was written back. -/
def replace_section_finish (fw1 : List Nat) (offset : Nat) (entry : ItocEntry) :
    RunResult (List Nat × ItocEntry) :=
  if entry.flash_addr + entry.size ≤ fw1.length then
    let window := (fw1.drop entry.flash_addr).take entry.size
    let e1 := { entry with
      section_crc := calc_crc16 (calc_crc16 0x0000 window) [0x00, 0x00] }
    let e2 := { e1 with itoc_entry_crc := e1.calc_itoc_entry_crc }
    match write_bytes offset e2.toBytes fw1 with
    | .error s => .err s
    | .ok fw2 => .ok (fw2, e2)
  else .panic

/-- The middle of `replace_section`, once the target entry is resolved:
re-encode the replacement content when the entry is cache-line protected
and repair is not suppressed, reject content larger than the declared
size, and overwrite the section bytes.  (The parsed `no_update_itoc`
switch is never consulted by the source.) -/
def replace_section_on_entry (fw : List Nat) (args : CliReplaceSection)
    (offset : Nat) (entry : ItocEntry) : RunResult (List Nat × ItocEntry) :=
  let section_content :=
    if entry.cache_line_crc && !args.no_fix_cache_line_crc then
      encode_cache_lines args.section_content
    else args.section_content
  if section_content.length ≤ entry.size then
    match write_bytes entry.flash_addr section_content fw with
    | .error s => .err s
    | .ok fw1 => replace_section_finish fw1 offset entry
  else .err "New Section content is too big"

/-- Entry resolution in `replace_section`: the `ensure!` on the section
index followed by indexing into the scanned list. -/
def replace_section_with_itoc (fw : List Nat) (args : CliReplaceSection)
    (itoc : List (Nat × ItocEntry)) : RunResult (List Nat × ItocEntry) :=
  match itoc.get? args.section_index with
  | none => .err "Section index out of range"
  | some (offset, entry) => replace_section_on_entry fw args offset entry

/-- `replace_section`: scan the table, resolve the target entry by index,
then run the staged replacement pipeline above. -/
def replace_section (fw : List Nat) (args : CliReplaceSection) :
    RunResult (List Nat × ItocEntry) :=
  match read_itoc fw with
  | .err s => .err s
  | .panic => .panic
  | .ok itoc => replace_section_with_itoc fw args itoc

/-! ### Codec lemmas -/

theorem ItocEntry.length_toBytes (e : ItocEntry) : e.toBytes.length = 32 := by
  cases e
  simp [ItocEntry.toBytes, be16, be24, be32]

theorem ItocEntry.ofBytes_toBytes (e : ItocEntry) (h : e.WF) :
    ItocEntry.ofBytes e.toBytes = e := by
  obtain ⟨h1, h2, h3, h4, h5, h6, h7, h8, h9⟩ := h
  cases e with
  | mk t sz zi cl la ep v fa es cr sc ic =>
    simp only [ItocEntry.toBytes, be16, be24, be32, List.cons_append,
      List.nil_append, List.singleton_append] at *
    simp only [ItocEntry.ofBytes, ItocEntry.mk.injEq]
    refine ⟨?_, ?_, ?_, ?_, ?_, ?_, ?_, ?_, ?_, ?_, ?_, ?_⟩
    · exact h9
    · omega
    · cases zi <;> cases cl <;> simp only [cond] <;>
        simp only [beq_iff_eq, beq_eq_false_iff_ne, ne_eq] <;> omega
    · cases zi <;> cases cl <;> simp only [cond] <;>
        simp only [beq_iff_eq, beq_eq_false_iff_ne, ne_eq] <;> omega
    · cases zi <;> cases cl <;> simp only [cond] <;> omega
    · omega
    · omega
    · omega
    · cases es <;> simp only [cond] <;> decide
    · omega
    · omega
    · omega

theorem ItocEntry.fromBytes_toBytes (e : ItocEntry) (h : e.WF) :
    ItocEntry.fromBytes e.toBytes = some e := by
  rw [ItocEntry.fromBytes, if_pos (by rw [e.length_toBytes])]
  rw [e.ofBytes_toBytes h]

/-! ### Chunking lemmas -/

theorem chunksAux_congr (n : Nat) (hn : 0 < n) :
    ∀ f1 f2 (l : List Nat), l.length ≤ f1 → l.length ≤ f2 →
      chunksAux n f1 l = chunksAux n f2 l := by
  intro f1
  induction f1 with
  | zero =>
    intro f2 l h1 _
    have : l = [] := List.eq_nil_of_length_eq_zero (Nat.le_zero.mp h1)
    subst this
    cases f2 <;> rfl
  | succ f1 ih =>
    intro f2 l h1 h2
    cases l with
    | nil => cases f2 <;> rfl
    | cons x xs =>
      cases f2 with
      | zero => simp at h2
      | succ f2 =>
        show _ :: _ = _ :: _
        refine congrArg _ (ih f2 _ ?_ ?_) <;>
          simp only [List.length_drop, List.length_cons] at * <;> omega

theorem chunks_nil (n : Nat) : chunks n [] = [] := rfl

theorem chunks_eq_cons (n : Nat) (hn : 0 < n) (l : List Nat) (hl : l ≠ []) :
    chunks n l = l.take n :: chunks n (l.drop n) := by
  cases l with
  | nil => exact absurd rfl hl
  | cons x xs =>
    show chunksAux n (xs.length + 1) (x :: xs) = _
    show _ :: _ = _ :: _
    refine congrArg _ (chunksAux_congr n hn _ _ _ ?_ ?_) <;>
      simp only [List.length_drop, List.length_cons] <;> omega

theorem strip_cache_lines_eq (content : List Nat) :
    strip_cache_lines content =
      (List.range (content.length / 0x44)).flatMap
        fun i => (content.drop (0x44 * i)).take 0x40 := by
  suffices hgen : ∀ n (content : List Nat), content.length = n →
      strip_cache_lines content =
        (List.range (content.length / 0x44)).flatMap
          fun i => (content.drop (0x44 * i)).take 0x40 from hgen _ content rfl
  intro n
  induction n using Nat.strong_induction_on with
  | _ n ih =>
    intro content h
    cases content with
    | nil => rfl
    | cons x xs =>
      rw [strip_cache_lines, chunks_eq_cons 0x44 (by norm_num) _ (by simp)]
      rw [List.filterMap_cons]
      by_cases hbig : 0x44 ≤ (x :: xs).length
      · have htk : ((x :: xs).take 0x44).length = 0x44 := by
          rw [List.length_take]; omega
        rw [if_pos htk, List.flatten_cons]
        have hrest := ih ((x :: xs).drop 0x44).length
          (by simp only [List.length_drop, List.length_cons] at h ⊢; omega) _ rfl
        rw [strip_cache_lines] at hrest
        rw [hrest]
        have hdiv : (x :: xs).length / 0x44 = ((x :: xs).length - 0x44) / 0x44 + 1 :=
          Nat.div_eq_sub_div (by norm_num) hbig
        rw [hdiv, List.range_succ_eq_map, List.flatMap_cons, List.flatMap_map,
          Nat.mul_zero, List.drop_zero]
        refine congrArg₂ (· ++ ·) ?_ ?_
        · rw [List.take_take]
          norm_num
        · rw [List.length_drop]
          refine congrArg (List.flatMap _) ?_
          funext i
          rw [List.drop_drop]
          rw [show 68 * i.succ = 68 + 68 * i from by omega]
      · have htk : ((x :: xs).take 0x44).length ≠ 0x44 := by
          rw [List.length_take]; omega
        rw [if_neg htk]
        have hdrop : (x :: xs).drop 0x44 = [] := by
          apply List.eq_nil_of_length_eq_zero
          rw [List.length_drop]; omega
        rw [hdrop]
        have hdiv : (x :: xs).length / 0x44 = 0 := Nat.div_eq_of_lt (by omega)
        rw [hdiv]
        rfl

theorem strip_cache_lines_length (content : List Nat) :
    (strip_cache_lines content).length = 0x40 * (content.length / 0x44) := by
  suffices hgen : ∀ n (content : List Nat), content.length = n →
      (strip_cache_lines content).length = 0x40 * (content.length / 0x44) from
    hgen _ content rfl
  intro n
  induction n using Nat.strong_induction_on with
  | _ n ih =>
    intro content h
    cases content with
    | nil => rfl
    | cons x xs =>
      rw [strip_cache_lines, chunks_eq_cons 0x44 (by norm_num) _ (by simp),
        List.filterMap_cons]
      by_cases hbig : 0x44 ≤ (x :: xs).length
      · have htk : ((x :: xs).take 0x44).length = 0x44 := by
          rw [List.length_take]; omega
        rw [if_pos htk, List.flatten_cons, List.length_append]
        have hrest := ih ((x :: xs).drop 0x44).length
          (by simp only [List.length_drop, List.length_cons] at h ⊢; omega) _ rfl
        rw [strip_cache_lines] at hrest
        rw [hrest]
        simp only [List.length_take, List.length_drop, List.length_cons] at *
        omega
      · have htk : ((x :: xs).take 0x44).length ≠ 0x44 := by
          rw [List.length_take]; omega
        rw [if_neg htk]
        have hdrop : (x :: xs).drop 0x44 = [] := by
          apply List.eq_nil_of_length_eq_zero
          rw [List.length_drop]; omega
        rw [hdrop]
        have hdiv : (x :: xs).length / 0x44 = 0 := Nat.div_eq_of_lt (by omega)
        rw [hdiv]
        rfl

theorem encode_cache_lines_eq (content : List Nat) :
    encode_cache_lines content =
      (List.range ((content.length + 0x3f) / 0x40)).flatMap fun i =>
        (content.drop (0x40 * i)).take 0x40 ++ [0x00, 0x00] ++
          le16 (calc_hwcrc 0x0000
            ((content.drop (0x40 * i)).take 0x40 ++ [0x00, 0x00])) := by
  suffices hgen : ∀ n (content : List Nat), content.length = n →
      encode_cache_lines content =
        (List.range ((content.length + 0x3f) / 0x40)).flatMap fun i =>
          (content.drop (0x40 * i)).take 0x40 ++ [0x00, 0x00] ++
            le16 (calc_hwcrc 0x0000
              ((content.drop (0x40 * i)).take 0x40 ++ [0x00, 0x00])) from
    hgen _ content rfl
  intro n
  induction n using Nat.strong_induction_on with
  | _ n ih =>
    intro content h
    cases content with
    | nil => rfl
    | cons x xs =>
      rw [encode_cache_lines, chunks_eq_cons 0x40 (by norm_num) _ (by simp),
        List.map_cons, List.flatten_cons]
      by_cases hsmall : (x :: xs).length ≤ 0x40
      · have hdrop : (x :: xs).drop 0x40 = [] := by
          apply List.eq_nil_of_length_eq_zero
          rw [List.length_drop]; omega
        rw [hdrop]
        have hdiv : ((x :: xs).length + 0x3f) / 0x40 = 1 := by
          have hpos : 0 < (x :: xs).length := by simp
          omega
        rw [hdiv, show List.range 1 = [0] from rfl, List.flatMap_cons,
          List.flatMap_nil, Nat.mul_zero, List.drop_zero]
        rfl
      · have hrest := ih ((x :: xs).drop 0x40).length
          (by simp only [List.length_drop, List.length_cons] at h ⊢; omega) _ rfl
        rw [encode_cache_lines] at hrest
        rw [hrest]
        have hdiv : ((x :: xs).length + 0x3f) / 0x40 =
            (((x :: xs).drop 0x40).length + 0x3f) / 0x40 + 1 := by
          rw [List.length_drop]; omega
        rw [hdiv, List.range_succ_eq_map, List.flatMap_cons, List.flatMap_map,
          Nat.mul_zero, List.drop_zero]
        refine congrArg₂ (· ++ ·) rfl ?_
        refine congrArg (List.flatMap _) ?_
        funext i
        rw [List.drop_drop]
        rw [show 0x40 * i.succ = 0x40 + 0x40 * i from by omega]

theorem encode_cache_lines_length (content : List Nat) (k : Nat)
    (h : content.length = 0x40 * k) :
    (encode_cache_lines content).length = 0x44 * k := by
  induction k generalizing content with
  | zero =>
    have : content = [] := List.eq_nil_of_length_eq_zero (by omega)
    subst this
    rfl
  | succ k ih =>
    rw [encode_cache_lines, chunks_eq_cons 0x40 (by norm_num) _
      (by intro hc; rw [hc] at h; simp only [List.length_nil] at h; omega),
      List.map_cons, List.flatten_cons, List.length_append]
    have hrest := ih ((content.drop 0x40)) (by rw [List.length_drop]; omega)
    rw [encode_cache_lines] at hrest
    rw [hrest]
    simp only [List.length_append, List.length_take, le16, List.length_cons,
      List.length_nil]
    omega

/-! ### Firmware buffer lemmas -/

theorem write_bytes_splice (offset : Nat) (value fw : List Nat)
    (h : offset + value.length < fw.length) :
    write_bytes offset value fw =
      .ok (fw.take offset ++ value ++ fw.drop (offset + value.length)) := by
  rw [write_bytes, if_pos h]

theorem write_bytes_oob (offset : Nat) (value fw : List Nat)
    (h : ¬ offset + value.length < fw.length) :
    write_bytes offset value fw = .error "Firmware structure out of bounds" := by
  rw [write_bytes, if_neg h]

theorem write_bytes_ok_elim {offset : Nat} {value fw fw' : List Nat}
    (h : write_bytes offset value fw = .ok fw') :
    offset + value.length < fw.length ∧
      fw' = fw.take offset ++ value ++ fw.drop (offset + value.length) := by
  rw [write_bytes] at h
  by_cases hb : offset + value.length < fw.length
  · rw [if_pos hb] at h
    injection h with h
    exact ⟨hb, h.symm⟩
  · rw [if_neg hb] at h
    exact Except.noConfusion h

theorem write_bytes_ok_length {offset : Nat} {value fw fw' : List Nat}
    (h : write_bytes offset value fw = .ok fw') : fw'.length = fw.length := by
  obtain ⟨hb, rfl⟩ := write_bytes_ok_elim h
  simp only [List.length_append, List.length_take, List.length_drop]
  omega

theorem write_bytes_getElem? {offset : Nat} {value fw fw' : List Nat}
    (h : write_bytes offset value fw = .ok fw') (i : Nat) :
    fw'[i]? = if offset ≤ i ∧ i < offset + value.length
      then value[i - offset]? else fw[i]? := by
  obtain ⟨hb, rfl⟩ := write_bytes_ok_elim h
  have hto : (fw.take offset).length = offset := by
    rw [List.length_take]; omega
  rw [List.append_assoc, List.getElem?_append, hto]
  by_cases h1 : i < offset
  · rw [if_pos h1, if_neg (by omega), List.getElem?_take, if_pos h1]
  · rw [if_neg h1, List.getElem?_append]
    by_cases h2 : i - offset < value.length
    · rw [if_pos h2, if_pos ⟨by omega, by omega⟩]
    · rw [if_neg h2, if_neg (by omega), List.getElem?_drop]
      rw [show offset + value.length + (i - offset - value.length) = i from by omega]

/-! ### Scanner lemmas -/

theorem slotBytes_length (fw : List Nat) (offset : Nat)
    (h : offset + 32 ≤ fw.length) : (slotBytes fw offset).length = 32 := by
  rw [slotBytes, List.length_take, List.length_drop]
  omega

theorem fromBytes_slotBytes (fw : List Nat) (offset : Nat)
    (h : offset + 32 ≤ fw.length) :
    ItocEntry.fromBytes (slotBytes fw offset) =
      some (ItocEntry.ofBytes (slotBytes fw offset)) := by
  rw [ItocEntry.fromBytes, if_pos (by rw [slotBytes_length fw offset h])]

theorem read_itoc_aux_sentinel (fw : List Nat) :
    ∀ (N fuel offset : Nat), N < fuel →
      offset + 32 * N + 32 ≤ fw.length →
      (∀ i, i < N → slotBytes fw (offset + 32 * i) ≠ sentinel) →
      slotBytes fw (offset + 32 * N) = sentinel →
      read_itoc_aux fw fuel offset =
        .ok ((List.range N).map fun i =>
          (offset + 32 * i, ItocEntry.ofBytes (slotBytes fw (offset + 32 * i)))) := by
  intro N
  induction N with
  | zero =>
    intro fuel offset hfuel hin hns hsent
    cases fuel with
    | zero => omega
    | succ fuel =>
      rw [show offset + 32 * 0 = offset from by ring] at hsent
      rw [read_itoc_aux, if_pos (by omega), if_pos hsent]
      rfl
  | succ N ih =>
    intro fuel offset hfuel hin hns hsent
    cases fuel with
    | zero => omega
    | succ fuel =>
      have hin0 : offset + 32 ≤ fw.length := by omega
      have hns0 : slotBytes fw offset ≠ sentinel := by
        have := hns 0 (Nat.succ_pos N)
        rwa [show offset + 32 * 0 = offset from by ring] at this
      rw [read_itoc_aux, if_pos hin0, if_neg hns0, fromBytes_slotBytes fw offset hin0]
      have hrec := ih fuel (offset + 32) (by omega)
        (by rw [show offset + 32 + 32 * N = offset + 32 * (N + 1) from by ring]; exact hin)
        (by
          intro i hi
          have := hns (i + 1) (by omega)
          rwa [show offset + 32 * (i + 1) = offset + 32 + 32 * i from by ring] at this)
        (by
          rw [show offset + 32 + 32 * N = offset + 32 * (N + 1) from by ring]
          exact hsent)
      rw [hrec]
      show RunResult.ok _ = _
      rw [List.range_succ_eq_map, List.map_cons, List.map_map]
      refine congrArg _ (congrArg₂ (· :: ·) ?_ ?_)
      · rw [show offset + 32 * 0 = offset from by ring]
      · refine congrArg₂ _ ?_ rfl
        funext i
        simp only [Function.comp]
        rw [show offset + 32 * (i + 1) = offset + 32 + 32 * i from by ring]

theorem read_itoc_sentinel (fw : List Nat) (N : Nat)
    (hin : 0x4020 + 32 * N + 32 ≤ fw.length)
    (hns : ∀ i, i < N → slotBytes fw (0x4020 + 32 * i) ≠ sentinel)
    (hsent : slotBytes fw (0x4020 + 32 * N) = sentinel) :
    read_itoc fw =
      .ok ((List.range N).map fun i =>
        (0x4020 + 32 * i, ItocEntry.ofBytes (slotBytes fw (0x4020 + 32 * i)))) := by
  exact read_itoc_aux_sentinel fw N (fw.length + 1) 0x4020 (by omega) hin hns hsent

theorem read_itoc_aux_no_err (fw : List Nat) :
    ∀ (fuel offset : Nat) (s : String), read_itoc_aux fw fuel offset ≠ .err s := by
  intro fuel
  induction fuel with
  | zero => intro offset s h; exact RunResult.noConfusion h
  | succ fuel ih =>
    intro offset s h
    rw [read_itoc_aux] at h
    by_cases hin : offset + 32 ≤ fw.length
    · rw [if_pos hin] at h
      by_cases hsent : slotBytes fw offset = sentinel
      · rw [if_pos hsent] at h
        exact RunResult.noConfusion h
      · rw [if_neg hsent, fromBytes_slotBytes fw offset hin] at h
        revert h
        cases hrec : read_itoc_aux fw fuel (offset + 32) with
        | ok rest => intro h; exact RunResult.noConfusion h
        | err s' => intro _; exact ih (offset + 32) s' hrec
        | panic => intro h; exact RunResult.noConfusion h
    · rw [if_neg hin] at h
      exact RunResult.noConfusion h

theorem read_itoc_aux_no_sentinel_panic (fw : List Nat) :
    ∀ (fuel offset : Nat),
      (∀ k, offset + 32 * k + 32 ≤ fw.length →
        slotBytes fw (offset + 32 * k) ≠ sentinel) →
      read_itoc_aux fw fuel offset = .panic := by
  intro fuel
  induction fuel with
  | zero => intro offset _; rfl
  | succ fuel ih =>
    intro offset hns
    rw [read_itoc_aux]
    by_cases hin : offset + 32 ≤ fw.length
    · have hns0 : slotBytes fw offset ≠ sentinel := by
        have := hns 0 (by omega)
        rwa [show offset + 32 * 0 = offset from by ring] at this
      rw [if_pos hin, if_neg hns0, fromBytes_slotBytes fw offset hin]
      have hrec := ih (offset + 32) (by
        intro k hk
        have := hns (k + 1) (by omega)
        rwa [show offset + 32 * (k + 1) = offset + 32 + 32 * k from by ring] at this)
      rw [hrec]
    · rw [if_neg hin]

/-! ### Window arithmetic helpers -/

theorem slotBytes_prefix (pre rest : List Nat) (off : Nat) (h : pre.length = off) :
    slotBytes (pre ++ rest) off = rest.take 32 := by
  rw [slotBytes, List.drop_left' h]

theorem window_in_replicate (a m : Nat) (rest : List Nat) (off sz : Nat)
    (h : off + sz ≤ m) :
    ((List.replicate m a ++ rest).drop off).take sz = List.replicate sz a := by
  rw [List.drop_append_eq_append_drop, List.drop_replicate, List.length_replicate,
    show off - m = 0 from by omega, List.drop_zero,
    List.take_append_eq_append_take, List.take_replicate, List.length_replicate,
    show min sz (m - off) = sz from by omega,
    show sz - (m - off) = 0 from by omega, List.take_zero, List.append_nil]

theorem splice_window (fw content : List Nat) (flash sz : Nat)
    (hle : content.length ≤ sz) (hfl : flash ≤ fw.length) :
    ((fw.take flash ++ content ++ fw.drop (flash + content.length)).drop flash).take sz =
      content ++ (fw.drop (flash + content.length)).take (sz - content.length) := by
  rw [List.append_assoc, List.drop_left' (by rw [List.length_take]; omega),
    List.take_append_eq_append_take, List.take_of_length_le (by omega),
    show sz - content.length = sz - content.length from rfl]

/-! ### Concrete test fixtures

`testImg1`: an image whose ITOC holds one non-code entry (`IMAGE_INFO`,
size 4, flash address 0x100, `cache_line_crc` clear) followed by the
sentinel slot.

`testImg2`: an image whose ITOC holds one code entry (`MAIN_CODE`,
size 0x88, flash address 0x100, load address 0x345, `cache_line_crc`
set) followed by the sentinel slot. -/

def slot1 : List Nat :=
  [0x10, 0x00, 0x00, 0x04,
   0x00, 0x00, 0x00, 0x00,
   0x00, 0x00, 0x00, 0x00,
   0x00, 0x00, 0x00, 0x00,
   0x00, 0x00, 0x00, 0x00,
   0x00, 0x00, 0x01, 0x00,
   0x00, 0x00, 0x00, 0x00,
   0x00, 0x00, 0x00, 0x00]

def entry1 : ItocEntry :=
  { entry_type := .ImageInfo, size := 4, zipped_image := false,
    cache_line_crc := false, load_address := 0, entry_point := 0,
    version := 0, flash_addr := 0x100, encrypted_section := false,
    crc := 0, section_crc := 0, itoc_entry_crc := 0 }

def testImg1 : List Nat := List.replicate 0x4020 0xaa ++ slot1 ++ sentinel

def slot2 : List Nat :=
  [0x03, 0x00, 0x00, 0x88,
   0x40, 0x00, 0x03, 0x45,
   0x00, 0x00, 0x00, 0x00,
   0x00, 0x00, 0x00, 0x00,
   0x00, 0x00, 0x00, 0x00,
   0x00, 0x00, 0x01, 0x00,
   0x00, 0x00, 0x00, 0x00,
   0x00, 0x00, 0x00, 0x00]

def entry2 : ItocEntry :=
  { entry_type := .MainCode, size := 0x88, zipped_image := false,
    cache_line_crc := true, load_address := 0x345, entry_point := 0,
    version := 0, flash_addr := 0x100, encrypted_section := false,
    crc := 0, section_crc := 0, itoc_entry_crc := 0 }

def testImg2 : List Nat := List.replicate 0x4020 0xaa ++ slot2 ++ sentinel

theorem testImg1_length : testImg1.length = 0x4060 := by
  rw [testImg1, List.length_append, List.length_append, List.length_replicate]
  decide

theorem testImg2_length : testImg2.length = 0x4060 := by
  rw [testImg2, List.length_append, List.length_append, List.length_replicate]
  decide

theorem testImg1_slot0 : slotBytes testImg1 0x4020 = slot1 := by
  rw [testImg1, List.append_assoc,
    slotBytes_prefix _ _ _ (List.length_replicate ..), List.take_left' (by decide)]

theorem testImg1_slot1 : slotBytes testImg1 0x4040 = sentinel := by
  rw [testImg1,
    slotBytes_prefix _ _ _
      (by rw [List.length_append, List.length_replicate]; decide),
    List.take_of_length_le (by decide)]

theorem testImg2_slot0 : slotBytes testImg2 0x4020 = slot2 := by
  rw [testImg2, List.append_assoc,
    slotBytes_prefix _ _ _ (List.length_replicate ..), List.take_left' (by decide)]

theorem testImg2_slot1 : slotBytes testImg2 0x4040 = sentinel := by
  rw [testImg2,
    slotBytes_prefix _ _ _
      (by rw [List.length_append, List.length_replicate]; decide),
    List.take_of_length_le (by decide)]

theorem entry1_ofBytes : ItocEntry.ofBytes slot1 = entry1 := by decide

theorem entry2_ofBytes : ItocEntry.ofBytes slot2 = entry2 := by decide

theorem read_itoc_testImg1 : read_itoc testImg1 = .ok [(0x4020, entry1)] := by
  have h := read_itoc_sentinel testImg1 1
    (by rw [testImg1_length])
    (by
      intro i hi
      have hi0 : i = 0 := by omega
      subst hi0
      rw [show (0x4020 : Nat) + 32 * 0 = 0x4020 from by norm_num, testImg1_slot0]
      decide)
    (by rw [show (0x4020 : Nat) + 32 * 1 = 0x4040 from by norm_num, testImg1_slot1])
  rw [h, show List.range 1 = [0] from by decide]
  simp only [List.map_cons, List.map_nil]
  norm_num
  rw [testImg1_slot0, entry1_ofBytes]

theorem read_itoc_testImg2 : read_itoc testImg2 = .ok [(0x4020, entry2)] := by
  have h := read_itoc_sentinel testImg2 1
    (by rw [testImg2_length])
    (by
      intro i hi
      have hi0 : i = 0 := by omega
      subst hi0
      rw [show (0x4020 : Nat) + 32 * 0 = 0x4020 from by norm_num, testImg2_slot0]
      decide)
    (by rw [show (0x4020 : Nat) + 32 * 1 = 0x4040 from by norm_num, testImg2_slot1])
  rw [h, show List.range 1 = [0] from by decide]
  simp only [List.map_cons, List.map_nil]
  norm_num
  rw [testImg2_slot0, entry2_ofBytes]

/-! ### Replace-section execution lemmas -/

theorem replace_section_scan_ok (fw : List Nat) (args : CliReplaceSection)
    (itoc : List (Nat × ItocEntry)) (hscan : read_itoc fw = .ok itoc) :
    replace_section fw args = replace_section_with_itoc fw args itoc := by
  unfold replace_section
  rw [hscan]

theorem replace_section_get_some (fw : List Nat) (args : CliReplaceSection)
    (itoc : List (Nat × ItocEntry)) (off : Nat) (e : ItocEntry)
    (hget : itoc.get? args.section_index = some (off, e)) :
    replace_section_with_itoc fw args itoc = replace_section_on_entry fw args off e := by
  unfold replace_section_with_itoc
  rw [hget]

theorem replace_section_on_entry_eq (fw : List Nat) (args : CliReplaceSection)
    (off : Nat) (e : ItocEntry) (content : List Nat)
    (hcontent : content = if e.cache_line_crc && !args.no_fix_cache_line_crc
      then encode_cache_lines args.section_content else args.section_content) :
    replace_section_on_entry fw args off e =
      if content.length ≤ e.size then
        match write_bytes e.flash_addr content fw with
        | .error s => .err s
        | .ok fw1 => replace_section_finish fw1 off e
      else .err "New Section content is too big" := by
  unfold replace_section_on_entry
  rw [← hcontent]

theorem replace_section_finish_eq (fw1 fw2 : List Nat) (off : Nat) (e : ItocEntry)
    (w : List Nat) (e1 e2 : ItocEntry)
    (hwin : e.flash_addr + e.size ≤ fw1.length)
    (hw : w = (fw1.drop e.flash_addr).take e.size)
    (he1 : e1 = { e with section_crc := calc_crc16 (calc_crc16 0x0000 w) [0x00, 0x00] })
    (he2 : e2 = { e1 with itoc_entry_crc := e1.calc_itoc_entry_crc })
    (hwb2 : write_bytes off e2.toBytes fw1 = .ok fw2) :
    replace_section_finish fw1 off e = .ok (fw2, e2) := by
  subst he2
  subst he1
  subst hw
  unfold replace_section_finish
  rw [if_pos hwin]
  simp only [] at hwb2 ⊢
  rw [hwb2]

theorem replace_section_run (fw : List Nat) (args : CliReplaceSection)
    (itoc : List (Nat × ItocEntry)) (off : Nat) (e : ItocEntry)
    (content fw1 w : List Nat) (e1 e2 : ItocEntry)
    (hscan : read_itoc fw = .ok itoc)
    (hget : itoc.get? args.section_index = some (off, e))
    (hcontent : content = if e.cache_line_crc && !args.no_fix_cache_line_crc
      then encode_cache_lines args.section_content else args.section_content)
    (hsize : content.length ≤ e.size)
    (hwb : e.flash_addr + content.length < fw.length)
    (hfw1 : fw1 = fw.take e.flash_addr ++ content ++ fw.drop (e.flash_addr + content.length))
    (hwin : e.flash_addr + e.size ≤ fw.length)
    (hw : w = (fw1.drop e.flash_addr).take e.size)
    (he1 : e1 = { e with section_crc := calc_crc16 (calc_crc16 0x0000 w) [0x00, 0x00] })
    (he2 : e2 = { e1 with itoc_entry_crc := e1.calc_itoc_entry_crc })
    (hslot : off + 32 < fw.length) :
    replace_section fw args =
      .ok (fw1.take off ++ e2.toBytes ++ fw1.drop (off + 32), e2) := by
  have hlen1 : fw1.length = fw.length := by
    rw [hfw1]
    simp only [List.length_append, List.length_take, List.length_drop]
    omega
  have hwb2 := write_bytes_splice off e2.toBytes fw1
    (by rw [e2.length_toBytes]; omega)
  rw [e2.length_toBytes] at hwb2
  rw [replace_section_scan_ok fw args itoc hscan,
    replace_section_get_some fw args itoc off e hget,
    replace_section_on_entry_eq fw args off e content hcontent,
    if_pos hsize, write_bytes_splice _ _ _ hwb, ← hfw1]
  show replace_section_finish fw1 off e = _
  exact replace_section_finish_eq fw1 _ off e w e1 e2 (by omega) hw he1 he2 hwb2

theorem replace_section_too_big (fw : List Nat) (args : CliReplaceSection)
    (itoc : List (Nat × ItocEntry)) (off : Nat) (e : ItocEntry) (content : List Nat)
    (hscan : read_itoc fw = .ok itoc)
    (hget : itoc.get? args.section_index = some (off, e))
    (hcontent : content = if e.cache_line_crc && !args.no_fix_cache_line_crc
      then encode_cache_lines args.section_content else args.section_content)
    (hsize : e.size < content.length) :
    replace_section fw args = .err "New Section content is too big" := by
  rw [replace_section_scan_ok fw args itoc hscan,
    replace_section_get_some fw args itoc off e hget,
    replace_section_on_entry_eq fw args off e content hcontent,
    if_neg (by omega)]

theorem replace_section_finish_ok_elim {fw1 : List Nat} {off : Nat} {e : ItocEntry}
    {fw' : List Nat} {e' : ItocEntry}
    (h : replace_section_finish fw1 off e = .ok (fw', e')) :
    e.flash_addr + e.size ≤ fw1.length ∧
      (∃ e1, e1 = { e with section_crc := calc_crc16 (calc_crc16 0x0000 ((fw1.drop e.flash_addr).take e.size)) [0x00, 0x00] } ∧
        e' = { e1 with itoc_entry_crc := e1.calc_itoc_entry_crc } ∧
        write_bytes off e'.toBytes fw1 = .ok fw') := by
  unfold replace_section_finish at h
  by_cases hwin : e.flash_addr + e.size ≤ fw1.length
  · rw [if_pos hwin] at h
    simp only [] at h
    refine ⟨hwin, _, rfl, ?_⟩
    revert h
    cases hwb : write_bytes off (ItocEntry.toBytes _) fw1 with
    | error s => intro h; exact RunResult.noConfusion h
    | ok fw2 =>
      intro h
      rw [RunResult.ok.injEq, Prod.mk.injEq] at h
      obtain ⟨hfw, he⟩ := h
      subst hfw
      constructor
      · rw [← he]
      · rw [← he]
        exact hwb
  · rw [if_neg hwin] at h
    exact RunResult.noConfusion h

theorem replace_section_ok_elim {fw : List Nat} {args : CliReplaceSection}
    {fw' : List Nat} {e' : ItocEntry}
    (h : replace_section fw args = .ok (fw', e')) :
    ∃ itoc off e, read_itoc fw = .ok itoc ∧
      itoc.get? args.section_index = some (off, e) ∧
      ∃ content, content = (if e.cache_line_crc && !args.no_fix_cache_line_crc
          then encode_cache_lines args.section_content else args.section_content) ∧
        content.length ≤ e.size ∧
        ∃ fw1, write_bytes e.flash_addr content fw = .ok fw1 ∧
          replace_section_finish fw1 off e = .ok (fw', e') := by
  unfold replace_section at h
  revert h
  cases hscan : read_itoc fw with
  | err s => intro h; exact RunResult.noConfusion h
  | panic => intro h; exact RunResult.noConfusion h
  | ok itoc =>
    intro h
    simp only [] at h
    unfold replace_section_with_itoc at h
    revert h
    cases hget : itoc.get? args.section_index with
    | none => intro h; exact RunResult.noConfusion h
    | some p =>
      obtain ⟨off, e⟩ := p
      intro h
      simp only [] at h
      unfold replace_section_on_entry at h
      simp only [] at h
      by_cases hsize : (if e.cache_line_crc && !args.no_fix_cache_line_crc
          then encode_cache_lines args.section_content
          else args.section_content).length ≤ e.size
      · rw [if_pos hsize] at h
        revert h
        cases hwb : write_bytes e.flash_addr (if e.cache_line_crc && !args.no_fix_cache_line_crc
            then encode_cache_lines args.section_content
            else args.section_content) fw with
        | error s => intro h; exact RunResult.noConfusion h
        | ok fw1 =>
          intro h
          exact ⟨itoc, off, e, rfl, hget, _, rfl, hsize, fw1, hwb, h⟩
      · rw [if_neg hsize] at h
        exact RunResult.noConfusion h

/-! ### Dump-operation lemmas -/

theorem dump_sections_scan_ok (fw : List Nat) (itoc : List (Nat × ItocEntry))
    (hscan : read_itoc fw = .ok itoc) :
    dump_sections fw = dump_sections_go fw itoc := by
  unfold dump_sections
  rw [hscan]

theorem dump_code_scan_ok (fw : List Nat) (itoc : List (Nat × ItocEntry))
    (hscan : read_itoc fw = .ok itoc) :
    dump_code fw = dump_code_go fw itoc := by
  unfold dump_code
  rw [hscan]

theorem dump_sections_go_ok (fw : List Nat) :
    ∀ (itoc : List (Nat × ItocEntry)) (out : List (String × List Nat)),
      dump_sections_go fw itoc = .ok out →
      out = itoc.map fun p =>
        (dump_section_name p.2, (fw.drop p.2.flash_addr).take p.2.size) := by
  intro itoc
  induction itoc with
  | nil =>
    intro out h
    simp only [dump_sections_go] at h
    rw [RunResult.ok.injEq] at h
    rw [← h, List.map_nil]
  | cons p rest ih =>
    obtain ⟨off, e⟩ := p
    intro out h
    simp only [dump_sections_go] at h
    by_cases hb : e.flash_addr + e.size ≤ fw.length
    · rw [if_pos hb] at h
      revert h
      cases hrec : dump_sections_go fw rest with
      | ok out' =>
        intro h
        rw [RunResult.ok.injEq] at h
        rw [← h, List.map_cons, ih out' hrec]
      | err s => intro h; exact RunResult.noConfusion h
      | panic => intro h; exact RunResult.noConfusion h
    · rw [if_neg hb] at h
      exact RunResult.noConfusion h

theorem dump_code_go_ok (fw : List Nat) :
    ∀ (itoc : List (Nat × ItocEntry)) (out : List (String × List Nat)),
      dump_code_go fw itoc = .ok out →
      out = (itoc.filter fun p => p.2.entry_type.is_code).map fun p =>
        (dump_code_name p.2,
          if p.2.cache_line_crc then
            strip_cache_lines ((fw.drop p.2.flash_addr).take p.2.size)
          else (fw.drop p.2.flash_addr).take p.2.size) := by
  intro itoc
  induction itoc with
  | nil =>
    intro out h
    simp only [dump_code_go] at h
    rw [RunResult.ok.injEq] at h
    rw [← h, List.filter_nil, List.map_nil]
  | cons p rest ih =>
    obtain ⟨off, e⟩ := p
    intro out h
    simp only [dump_code_go] at h
    rw [List.filter_cons]
    by_cases hc : e.entry_type.is_code
    · rw [if_pos hc] at h
      rw [if_pos (by simpa using hc)]
      by_cases hb : e.flash_addr + e.size ≤ fw.length
      · rw [if_pos hb] at h
        revert h
        cases hrec : dump_code_go fw rest with
        | ok out' =>
          intro h
          rw [RunResult.ok.injEq] at h
          rw [← h, List.map_cons, ih out' hrec]
        | err s => intro h; exact RunResult.noConfusion h
        | panic => intro h; exact RunResult.noConfusion h
      · rw [if_neg hb] at h
        exact RunResult.noConfusion h
    · rw [if_neg hc] at h
      rw [if_neg (by simpa using hc)]
      exact ih out h

theorem testImg2_window : (testImg2.drop 0x100).take 0x88 = List.replicate 0x88 0xaa := by
  rw [testImg2, List.append_assoc]
  exact window_in_replicate 0xaa 0x4020 _ 0x100 0x88 (by norm_num)

theorem dump_code_testImg2 :
    dump_code testImg2 = .ok [("00000345_MAIN_CODE", List.replicate 0x80 0xaa)] := by
  rw [dump_code_scan_ok testImg2 _ read_itoc_testImg2]
  simp only [dump_code_go]
  rw [if_pos (by decide), if_pos (by rw [testImg2_length]; decide)]
  rw [show entry2.flash_addr = 0x100 from rfl, show entry2.size = 0x88 from rfl,
    testImg2_window]
  rw [if_pos (by decide)]
  rw [show strip_cache_lines (List.replicate 0x88 0xaa) = List.replicate 0x80 0xaa from by decide]
  rw [show dump_code_name entry2 = "00000345_MAIN_CODE" from by decide]

/-! ### Concrete replace-section runs -/

theorem write_bytes_slot {off : Nat} {v fw1 fw' : List Nat}
    (hlen : v.length = 32) (h : write_bytes off v fw1 = .ok fw') :
    slotBytes fw' off = v := by
  obtain ⟨hb, rfl⟩ := write_bytes_ok_elim h
  rw [slotBytes, List.append_assoc,
    List.drop_left' (by rw [List.length_take]; omega), List.take_left' hlen]

def args1 : CliReplaceSection :=
  { no_update_itoc := true, no_fix_cache_line_crc := false,
    section_index := 0, section_content := [1, 2, 3, 4] }

def midEntry1 : ItocEntry := { entry1 with section_crc := 17983 }

def outEntry1 : ItocEntry :=
  { entry_type := .ImageInfo, size := 4, zipped_image := false,
    cache_line_crc := false, load_address := 0, entry_point := 0,
    version := 0, flash_addr := 0x100, encrypted_section := false,
    crc := 0, section_crc := 17983, itoc_entry_crc := 9002 }

def outFw1 : List Nat := testImg1.take 0x100 ++ [1, 2, 3, 4] ++ testImg1.drop 0x104

def outFw2 : List Nat := outFw1.take 0x4020 ++ outEntry1.toBytes ++ outFw1.drop 0x4040

theorem outFw1_window : (outFw1.drop 0x100).take 4 = [1, 2, 3, 4] := by
  rw [outFw1, List.append_assoc,
    List.drop_left' (by rw [List.length_take, testImg1_length]; decide)]
  exact List.take_left' rfl

theorem replace_run1 : replace_section testImg1 args1 = .ok (outFw2, outEntry1) := by
  have h := replace_section_run testImg1 args1 [(0x4020, entry1)] 0x4020 entry1
    [1, 2, 3, 4] outFw1 [1, 2, 3, 4] midEntry1 outEntry1
    read_itoc_testImg1
    rfl
    (by decide)
    (by decide)
    (by rw [testImg1_length]; decide)
    rfl
    (by rw [testImg1_length]; decide)
    outFw1_window.symm
    (by decide)
    (by decide)
    (by rw [testImg1_length]; decide)
  exact h

def args1big : CliReplaceSection :=
  { no_update_itoc := false, no_fix_cache_line_crc := false,
    section_index := 0, section_content := [1, 2, 3, 4, 5] }

theorem replace_run1_too_big :
    replace_section testImg1 args1big = .err "New Section content is too big" := by
  exact replace_section_too_big testImg1 args1big [(0x4020, entry1)] 0x4020 entry1
    [1, 2, 3, 4, 5] read_itoc_testImg1 rfl (by decide) (by decide)

def args2 : CliReplaceSection :=
  { no_update_itoc := false, no_fix_cache_line_crc := false,
    section_index := 0, section_content := List.replicate 0x40 0x55 }

def args2five : CliReplaceSection :=
  { no_update_itoc := false, no_fix_cache_line_crc := false,
    section_index := 0, section_content := [5] }

def repl2content : List Nat := encode_cache_lines (List.replicate 0x40 0x55)

def midFw2 : List Nat :=
  testImg2.take 0x100 ++ repl2content ++ testImg2.drop (0x100 + repl2content.length)

theorem repl2content_length : repl2content.length = 0x44 := by
  have h := encode_cache_lines_length (List.replicate 0x40 0x55) 1
    (by rw [List.length_replicate])
  rw [repl2content, h]

theorem replace_run2 : ∃ fw' e', replace_section testImg2 args2 = .ok (fw', e') := by
  refine ⟨_, _, replace_section_run testImg2 args2 [(0x4020, entry2)] 0x4020 entry2
    repl2content midFw2 ((midFw2.drop entry2.flash_addr).take entry2.size) _ _
    read_itoc_testImg2
    rfl
    rfl
    (by rw [repl2content_length]; decide)
    (by rw [repl2content_length, testImg2_length]; decide)
    rfl
    (by rw [testImg2_length]; decide)
    rfl
    rfl
    rfl
    (by rw [testImg2_length]; decide)⟩

theorem dump_sections_testImg2 :
    dump_sections testImg2 = .ok [("00000100_MAIN_CODE", List.replicate 0x88 0xaa)] := by
  rw [dump_sections_scan_ok testImg2 _ read_itoc_testImg2]
  simp only [dump_sections_go]
  rw [if_pos (by rw [testImg2_length]; decide)]
  rw [show entry2.flash_addr = 0x100 from rfl, show entry2.size = 0x88 from rfl,
    testImg2_window,
    show dump_section_name entry2 = "00000100_MAIN_CODE" from by decide]

/-! ### Claims -/

/-- Claim C4: for every image whose table region at fixed offset 0x4020
contains N decodable 32-byte slots at stride 32 followed by a 32-byte
all-0xFF sentinel slot, the ITOC scan returns exactly N decoded entries,
in slot order, each paired with its absolute byte offset 0x4020 + 32*i,
and the sentinel slot itself is not decoded. -/
theorem c4_itoc_scan_exact (fw : List Nat) (N : Nat)
    (hin : 0x4020 + 32 * N + 32 ≤ fw.length)
    (hns : ∀ i, i < N → slotBytes fw (0x4020 + 32 * i) ≠ sentinel)
    (hsent : slotBytes fw (0x4020 + 32 * N) = sentinel) :
    read_itoc fw =
      .ok ((List.range N).map fun i =>
        (0x4020 + 32 * i, ItocEntry.ofBytes (slotBytes fw (0x4020 + 32 * i)))) :=
  read_itoc_sentinel fw N hin hns hsent

/-- Witness for C4: the one-entry image testImg1 scans to exactly its one
decoded slot at offset 0x4020. -/
theorem c4_itoc_scan_exact_witness :
    read_itoc testImg1 =
      .ok ((List.range 1).map fun i =>
        (0x4020 + 32 * i, ItocEntry.ofBytes (slotBytes testImg1 (0x4020 + 32 * i)))) := by
  refine c4_itoc_scan_exact testImg1 1 (by rw [testImg1_length]) ?_ ?_
  · intro i hi
    have hi0 : i = 0 := by omega
    subst hi0
    rw [show (0x4020 : Nat) + 32 * 0 = 0x4020 from by norm_num, testImg1_slot0]
    decide
  · rw [show (0x4020 : Nat) + 32 * 1 = 0x4040 from by norm_num, testImg1_slot1]

/-- Claim C10: decoding any in-bounds 32-byte slot is total (the
entry-type byte always maps to a variant through the Unknown catch-all
and every other field is fixed-width), so the scan never returns a
decode-error value; its only failure mode is the out-of-bounds slot
indexing panic, which occurs for every image that contains no in-bounds
all-0xFF slot on the 0x4020 + 32*k stride. -/
theorem c10_scan_total_panic :
    (∀ b : List Nat, 32 ≤ b.length →
      ItocEntry.fromBytes b = some (ItocEntry.ofBytes b)) ∧
    (∀ (fw : List Nat) (s : String), read_itoc fw ≠ .err s) ∧
    (∀ fw : List Nat,
      (∀ k, 0x4020 + 32 * k + 32 ≤ fw.length →
        slotBytes fw (0x4020 + 32 * k) ≠ sentinel) →
      read_itoc fw = .panic) := by
  refine ⟨?_, ?_, ?_⟩
  · intro b hb
    rw [ItocEntry.fromBytes, if_pos hb]
  · intro fw s
    exact read_itoc_aux_no_err fw _ _ s
  · intro fw h
    exact read_itoc_aux_no_sentinel_panic fw _ _ h

/-- Witness for C10: a 0x4040-byte all-zero image has exactly one
in-bounds slot, which is not the sentinel, so the scan panics; and an
all-zero 32-byte slot decodes. -/
theorem c10_scan_total_panic_witness :
    ItocEntry.fromBytes (List.replicate 32 0) =
      some (ItocEntry.ofBytes (List.replicate 32 0)) ∧
    read_itoc (List.replicate 0x4040 0) ≠ .err "decode error" ∧
    read_itoc (List.replicate 0x4040 0) = .panic := by
  refine ⟨c10_scan_total_panic.1 _ (by decide),
    c10_scan_total_panic.2.1 _ _, c10_scan_total_panic.2.2 _ ?_⟩
  intro k hk
  rw [List.length_replicate] at hk
  have hk0 : k = 0 := by omega
  subst hk0
  rw [show (0x4020 : Nat) + 32 * 0 = 0x4020 from by norm_num, slotBytes,
    List.drop_replicate, List.take_replicate]
  decide

/-- Claim C8: write_bytes returns an out-of-bounds error exactly when
offset + value length is not strictly below the buffer length (so a
write whose last byte would land exactly on the buffer's final byte is
rejected), and otherwise overwrites precisely those bytes in place,
preserving the length and every byte outside the written range. -/
theorem c8_write_bytes_bounds (offset : Nat) (value fw : List Nat) :
    (¬ offset + value.length < fw.length →
      write_bytes offset value fw = .error "Firmware structure out of bounds") ∧
    (offset + value.length = fw.length →
      write_bytes offset value fw = .error "Firmware structure out of bounds") ∧
    (∀ fw', write_bytes offset value fw = .ok fw' →
      offset + value.length < fw.length ∧
      fw'.length = fw.length ∧
      (∀ i, fw'[i]? = if offset ≤ i ∧ i < offset + value.length
        then value[i - offset]? else fw[i]?)) := by
  refine ⟨fun h => write_bytes_oob offset value fw h,
    fun h => write_bytes_oob offset value fw (by omega), ?_⟩
  intro fw' h
  exact ⟨(write_bytes_ok_elim h).1, write_bytes_ok_length h,
    write_bytes_getElem? h⟩

/-- Witness for C8: a 2-byte write at offset 1 into a 3-byte buffer
would end exactly on the final byte and is rejected; a 1-byte write at
offset 1 into the same buffer succeeds and overwrites only that byte. -/
theorem c8_write_bytes_bounds_witness :
    write_bytes 1 [9, 9] [1, 2, 3] = .error "Firmware structure out of bounds" ∧
    ([1, 9, 3] : List Nat).length = ([1, 2, 3] : List Nat).length ∧
    (∀ i, ([1, 9, 3] : List Nat)[i]? = if 1 ≤ i ∧ i < 1 + [9].length
      then [9][i - 1]? else ([1, 2, 3] : List Nat)[i]?) := by
  refine ⟨(c8_write_bytes_bounds 1 [9, 9] [1, 2, 3]).2.1 (by decide), ?_, ?_⟩
  · exact ((c8_write_bytes_bounds 1 [9] [1, 2, 3]).2.2 [1, 9, 3] rfl).2.1
  · exact ((c8_write_bytes_bounds 1 [9] [1, 2, 3]).2.2 [1, 9, 3] rfl).2.2

/-- Claim C7: replace-section with (possibly re-encoded) content strictly
longer than the target entry's declared size fails with the
"New Section content is too big" error before any write to the buffer;
with processed content of exactly size bytes (and the section window and
entry slot in bounds) it passes the size check and succeeds. -/
theorem c7_replace_bounds (fw : List Nat) (args : CliReplaceSection)
    (itoc : List (Nat × ItocEntry)) (off : Nat) (e : ItocEntry)
    (content : List Nat)
    (hscan : read_itoc fw = .ok itoc)
    (hget : itoc.get? args.section_index = some (off, e))
    (hcontent : content = if e.cache_line_crc && !args.no_fix_cache_line_crc
      then encode_cache_lines args.section_content else args.section_content) :
    (e.size < content.length →
      replace_section fw args = .err "New Section content is too big") ∧
    (content.length = e.size →
      e.flash_addr + e.size < fw.length →
      off + 32 < fw.length →
      ∃ fw' e', replace_section fw args = .ok (fw', e')) := by
  constructor
  · intro hbig
    exact replace_section_too_big fw args itoc off e content hscan hget hcontent hbig
  · intro hlen hwb hslot
    exact ⟨_, _, replace_section_run fw args itoc off e content _ _ _ _
      hscan hget hcontent (by omega) (by omega) rfl (by omega) rfl rfl rfl hslot⟩

/-- Witness for C7: on testImg1 (entry size 4), a 5-byte replacement is
rejected with the size error and a 4-byte replacement succeeds. -/
theorem c7_replace_bounds_witness :
    replace_section testImg1 args1big = .err "New Section content is too big" ∧
    ∃ fw' e', replace_section testImg1 args1 = .ok (fw', e') := by
  constructor
  · exact (c7_replace_bounds testImg1 args1big [(0x4020, entry1)] 0x4020 entry1
      [1, 2, 3, 4, 5] read_itoc_testImg1 rfl (by decide)).1 (by decide)
  · exact (c7_replace_bounds testImg1 args1 [(0x4020, entry1)] 0x4020 entry1
      [1, 2, 3, 4] read_itoc_testImg1 rfl (by decide)).2 (by decide)
      (by rw [testImg1_length]; decide) (by rw [testImg1_length]; decide)

/-- Claim C3: after a successful replace-section, the written-back
entry's section_crc equals crc16(crc16(0, w), [0,0]) where w is the full
declared window of size bytes at flash_addr as it stands after the
replacement bytes were written: the written content followed by the
stale original bytes up to the declared size, then a fixed 2-byte zero
pad; and the re-encoded entry occupies its original slot in the output
image. -/
theorem c3_section_crc_window (fw : List Nat) (args : CliReplaceSection)
    (itoc : List (Nat × ItocEntry)) (off : Nat) (e : ItocEntry)
    (fw' : List Nat) (e' : ItocEntry)
    (hscan : read_itoc fw = .ok itoc)
    (hget : itoc.get? args.section_index = some (off, e))
    (hok : replace_section fw args = .ok (fw', e')) :
    ∃ content fw1,
      content = (if e.cache_line_crc && !args.no_fix_cache_line_crc
        then encode_cache_lines args.section_content else args.section_content) ∧
      write_bytes e.flash_addr content fw = .ok fw1 ∧
      e'.section_crc =
        calc_crc16 (calc_crc16 0x0000 ((fw1.drop e.flash_addr).take e.size)) [0x00, 0x00] ∧
      (fw1.drop e.flash_addr).take e.size =
        content ++ (fw.drop (e.flash_addr + content.length)).take (e.size - content.length) ∧
      slotBytes fw' off = e'.toBytes := by
  obtain ⟨itoc2, off2, e2, hscan2, hget2, content, hc, hsz, fw1, hwb1, hfin⟩ :=
    replace_section_ok_elim hok
  rw [hscan] at hscan2
  rw [RunResult.ok.injEq] at hscan2
  subst hscan2
  rw [hget] at hget2
  rw [Option.some.injEq, Prod.mk.injEq] at hget2
  obtain ⟨hoff, he⟩ := hget2
  subst hoff
  subst he
  obtain ⟨hwin1, e1, he1, he'eq, hwb2⟩ := replace_section_finish_ok_elim hfin
  refine ⟨content, fw1, hc, hwb1, ?_, ?_, ?_⟩
  · rw [he'eq, he1]
  · obtain ⟨hb1, hfw1⟩ := write_bytes_ok_elim hwb1
    subst hfw1
    exact splice_window fw content e.flash_addr e.size hsz (by omega)
  · exact write_bytes_slot e'.length_toBytes hwb2

/-- Witness for C3: the checksum equations instantiated on the concrete
replacement run on testImg1. -/
theorem c3_section_crc_window_witness :
    ∃ content fw1,
      content = (if entry1.cache_line_crc && !args1.no_fix_cache_line_crc
        then encode_cache_lines args1.section_content else args1.section_content) ∧
      write_bytes entry1.flash_addr content testImg1 = .ok fw1 ∧
      outEntry1.section_crc =
        calc_crc16 (calc_crc16 0x0000 ((fw1.drop entry1.flash_addr).take entry1.size)) [0x00, 0x00] ∧
      (fw1.drop entry1.flash_addr).take entry1.size =
        content ++ (testImg1.drop (entry1.flash_addr + content.length)).take (entry1.size - content.length) ∧
      slotBytes outFw2 0x4020 = outEntry1.toBytes :=
  c3_section_crc_window testImg1 args1 [(0x4020, entry1)] 0x4020 entry1
    outFw2 outEntry1 read_itoc_testImg1 rfl replace_run1

/-- Claim C2 (code bug): the parsed no_update_itoc switch is never
consulted by replace-section: the operation behaves identically whatever
the switch's value, and on a concrete image with the switch set the two
checksum fields are still recomputed away from their scanned values. -/
theorem c2_no_update_itoc_ignored :
    (∀ (fw : List Nat) (args : CliReplaceSection) (b : Bool),
      replace_section fw { args with no_update_itoc := b } =
        replace_section fw args) ∧
    (replace_section testImg1 args1 = .ok (outFw2, outEntry1) ∧
      args1.no_update_itoc = true ∧
      entry1.section_crc = 0 ∧ entry1.itoc_entry_crc = 0 ∧
      outEntry1.section_crc ≠ 0 ∧ outEntry1.itoc_entry_crc ≠ 0) := by
  constructor
  · intro fw args b
    cases args
    rfl
  · exact ⟨replace_run1, rfl, rfl, rfl, by decide, by decide⟩

/-- Counterexample for C1: the per-line checksum is appended with
u16::to_le_bytes, not as 2 big-endian bytes: on a one-byte replacement
content [5] under the cache-line scheme, the re-encoded line carries a
little-endian trailer that differs from the big-endian form the claim
asserts. -/
theorem c1_counterexample :
    (if entry2.cache_line_crc && !args2five.no_fix_cache_line_crc
      then encode_cache_lines args2five.section_content
      else args2five.section_content) =
      [5, 0, 0] ++ le16 (calc_hwcrc 0x0000 [5, 0, 0]) ∧
    [5, 0, 0] ++ le16 (calc_hwcrc 0x0000 [5, 0, 0]) ≠
      [5, 0, 0] ++ be16 (calc_hwcrc 0x0000 [5, 0, 0]) := by
  constructor <;> decide

/-- Claim C1 (amended): in replace-section, when the target entry's
cache_line_crc flag is set and checksum repair is not suppressed, the
replacement content is re-chunked into 0x40-byte lines (a final short
line processed as its own line); for every line, 2 zero bytes are
appended, the hardware per-line checksum is computed over the resulting
line-plus-zero-pad, and that 16-bit checksum is appended as 2
LITTLE-endian bytes (u16::to_le_bytes), yielding 0x44 bytes per full
line. -/
theorem c1_cache_line_repair (fw : List Nat) (args : CliReplaceSection)
    (itoc : List (Nat × ItocEntry)) (off : Nat) (e : ItocEntry)
    (fw' : List Nat) (e' : ItocEntry)
    (hscan : read_itoc fw = .ok itoc)
    (hget : itoc.get? args.section_index = some (off, e))
    (hflag : e.cache_line_crc = true)
    (hnofix : args.no_fix_cache_line_crc = false)
    (hok : replace_section fw args = .ok (fw', e')) :
    (∃ fw1, write_bytes e.flash_addr (encode_cache_lines args.section_content) fw = .ok fw1) ∧
    encode_cache_lines args.section_content =
      (List.range ((args.section_content.length + 0x3f) / 0x40)).flatMap (fun i =>
        (args.section_content.drop (0x40 * i)).take 0x40 ++ [0x00, 0x00] ++
          le16 (calc_hwcrc 0x0000
            ((args.section_content.drop (0x40 * i)).take 0x40 ++ [0x00, 0x00]))) ∧
    (∀ k, args.section_content.length = 0x40 * k →
      (encode_cache_lines args.section_content).length = 0x44 * k) := by
  obtain ⟨itoc2, off2, e2, hscan2, hget2, content, hc, hsz, fw1, hwb1, hfin⟩ :=
    replace_section_ok_elim hok
  rw [hscan] at hscan2
  rw [RunResult.ok.injEq] at hscan2
  subst hscan2
  rw [hget] at hget2
  rw [Option.some.injEq, Prod.mk.injEq] at hget2
  obtain ⟨hoff, he⟩ := hget2
  subst hoff
  subst he
  rw [hflag, hnofix] at hc
  simp only [Bool.not_false, Bool.true_and, if_pos] at hc
  subst hc
  exact ⟨⟨fw1, hwb1⟩, encode_cache_lines_eq args.section_content,
    encode_cache_lines_length args.section_content⟩

/-- Witness for C1: the amended statement instantiated on the concrete
cache-line replacement run on testImg2. -/
theorem c1_cache_line_repair_witness :
    (∃ fw1, write_bytes entry2.flash_addr
      (encode_cache_lines args2.section_content) testImg2 = .ok fw1) ∧
    encode_cache_lines args2.section_content =
      (List.range ((args2.section_content.length + 0x3f) / 0x40)).flatMap (fun i =>
        (args2.section_content.drop (0x40 * i)).take 0x40 ++ [0x00, 0x00] ++
          le16 (calc_hwcrc 0x0000
            ((args2.section_content.drop (0x40 * i)).take 0x40 ++ [0x00, 0x00]))) ∧
    (∀ k, args2.section_content.length = 0x40 * k →
      (encode_cache_lines args2.section_content).length = 0x44 * k) := by
  obtain ⟨fw', e', hok⟩ := replace_run2
  exact c1_cache_line_repair testImg2 args2 [(0x4020, entry2)] 0x4020 entry2 fw' e'
    read_itoc_testImg2 rfl rfl rfl hok

def c5entryBase : ItocEntry :=
  { entry_type := .Unknown 0x02, size := 0, zipped_image := false,
    cache_line_crc := false, load_address := 0, entry_point := 0,
    version := 0, flash_addr := 0, encrypted_section := false,
    crc := 0, section_crc := 0, itoc_entry_crc := 0 }

def c5entry : ItocEntry :=
  { c5entryBase with itoc_entry_crc := c5entryBase.calc_itoc_entry_crc }

/-- Counterexample for C5: an entry whose entry_type is the
non-canonical Unknown 0x02 (0x02 is the recognized PCI_CODE id) has a
stored itoc_entry_crc matching its encoded prefix, yet decode of its
encoding yields PCI_CODE, not the original entry. -/
theorem c5_counterexample :
    c5entry.itoc_entry_crc = calc_crc16 0x0000 (c5entry.toBytes.take 0x1e) ∧
    ItocEntry.fromBytes c5entry.toBytes ≠ some c5entry := by
  constructor <;> decide

/-- Claim C5 (amended): decode-then-encode round-trips: decode(encode(e))
= e for every entry e whose fields fit their declared bit widths, whose
entry_type is canonically represented (Unknown only carrying codes
outside the 25 recognized ids), and whose stored itoc_entry_crc equals
crc16(0, first 30 encoded bytes of e). -/
theorem c5_roundtrip (e : ItocEntry) (hwf : e.WF)
    (hcrc : e.itoc_entry_crc = calc_crc16 0x0000 (e.toBytes.take 0x1e)) :
    ItocEntry.fromBytes e.toBytes = some e :=
  ItocEntry.fromBytes_toBytes e hwf

/-- Witness for C5: the concrete updated entry written by the testImg1
run satisfies the hypotheses and round-trips. -/
theorem c5_roundtrip_witness :
    ItocEntry.fromBytes outEntry1.toBytes = some outEntry1 :=
  c5_roundtrip outEntry1 (by decide) (by decide)

/-- Claim C6: for every scanned code-classified entry, dump-code slices
the declared size-byte payload at flash_addr; when cache_line_crc is set
the payload is consumed in 0x44-byte chunks of which only the leading
0x40 content bytes of each complete chunk are kept (a final partial
chunk is silently dropped, so the output length is
0x40 * (size / 0x44): size 0x88 yields 0x80 bytes and size 0x50 yields
0x40 bytes); when the flag is clear the payload is copied verbatim. -/
theorem c6_dump_code_extraction (fw : List Nat)
    (itoc : List (Nat × ItocEntry)) (out : List (String × List Nat))
    (hscan : read_itoc fw = .ok itoc) (hdump : dump_code fw = .ok out) :
    out = (itoc.filter fun p => p.2.entry_type.is_code).map (fun p =>
      (dump_code_name p.2,
        if p.2.cache_line_crc then
          strip_cache_lines ((fw.drop p.2.flash_addr).take p.2.size)
        else (fw.drop p.2.flash_addr).take p.2.size)) ∧
    (∀ content : List Nat, strip_cache_lines content =
      (List.range (content.length / 0x44)).flatMap
        fun i => (content.drop (0x44 * i)).take 0x40) ∧
    (∀ content : List Nat,
      (strip_cache_lines content).length = 0x40 * (content.length / 0x44)) ∧
    (∀ content : List Nat, content.length = 0x88 →
      (strip_cache_lines content).length = 0x80) ∧
    (∀ content : List Nat, content.length = 0x50 →
      (strip_cache_lines content).length = 0x40) := by
  refine ⟨?_, strip_cache_lines_eq, strip_cache_lines_length, ?_, ?_⟩
  · rw [dump_code_scan_ok fw itoc hscan] at hdump
    exact dump_code_go_ok fw itoc out hdump
  · intro content hlen
    rw [strip_cache_lines_length, hlen]
  · intro content hlen
    rw [strip_cache_lines_length, hlen]

/-- Witness for C6: instantiated on testImg2, whose single MAIN_CODE
entry has cache_line_crc set and size 0x88; its dump is the 0x80
leading-content bytes. -/
theorem c6_dump_code_extraction_witness :
    [("00000345_MAIN_CODE", List.replicate 0x80 0xaa)] =
      (([(0x4020, entry2)].filter fun p => p.2.entry_type.is_code).map (fun p =>
        (dump_code_name p.2,
          if p.2.cache_line_crc then
            strip_cache_lines ((testImg2.drop p.2.flash_addr).take p.2.size)
          else (testImg2.drop p.2.flash_addr).take p.2.size))) ∧
    (∀ content : List Nat, strip_cache_lines content =
      (List.range (content.length / 0x44)).flatMap
        fun i => (content.drop (0x44 * i)).take 0x40) ∧
    (∀ content : List Nat,
      (strip_cache_lines content).length = 0x40 * (content.length / 0x44)) ∧
    (∀ content : List Nat, content.length = 0x88 →
      (strip_cache_lines content).length = 0x80) ∧
    (∀ content : List Nat, content.length = 0x50 →
      (strip_cache_lines content).length = 0x40) :=
  c6_dump_code_extraction testImg2 [(0x4020, entry2)]
    [("00000345_MAIN_CODE", List.replicate 0x80 0xaa)]
    read_itoc_testImg2 dump_code_testImg2

/-- Counterexample for C9: dump-code names its output file by the
entry's load address, not its flash address: on testImg2 (flash address
0x100, load address 0x345) the produced file name is
"00000345_MAIN_CODE", which differs from the flash-address-based name
"00000100_MAIN_CODE" the claim asserts. -/
theorem c9_counterexample :
    dump_code testImg2 = .ok [("00000345_MAIN_CODE", List.replicate 0x80 0xaa)] ∧
    "00000345_MAIN_CODE" ≠
      hex8 entry2.flash_addr ++ "_" ++ entry2.entry_type.typeName ∧
    hex8 entry2.flash_addr ++ "_" ++ entry2.entry_type.typeName =
      "00000100_MAIN_CODE" := by
  refine ⟨dump_code_testImg2, by decide, by decide⟩

/-- Claim C9 (amended): every dump-sections output file is named
{flash_address_in_lowercase_hex_8digits}_{section_type_name}, while
every dump-code output file is named
{load_address_in_lowercase_hex_8digits}_{section_type_name}. -/
theorem c9_dump_file_names (fw : List Nat) (itoc : List (Nat × ItocEntry))
    (hscan : read_itoc fw = .ok itoc) :
    (∀ out, dump_sections fw = .ok out →
      out = itoc.map fun p =>
        (hex8 p.2.flash_addr ++ "_" ++ p.2.entry_type.typeName,
          (fw.drop p.2.flash_addr).take p.2.size)) ∧
    (∀ out, dump_code fw = .ok out →
      out.map Prod.fst = ((itoc.filter fun p => p.2.entry_type.is_code).map
        fun p => hex8 p.2.load_address ++ "_" ++ p.2.entry_type.typeName)) := by
  constructor
  · intro out h
    rw [dump_sections_scan_ok fw itoc hscan] at h
    exact dump_sections_go_ok fw itoc out h
  · intro out h
    rw [dump_code_scan_ok fw itoc hscan] at h
    rw [dump_code_go_ok fw itoc out h, List.map_map]
    rfl

/-- Witness for C9: both naming facts instantiated on testImg2. -/
theorem c9_dump_file_names_witness :
    [("00000100_MAIN_CODE", List.replicate 0x88 0xaa)] =
      ([(0x4020, entry2)].map fun p =>
        (hex8 p.2.flash_addr ++ "_" ++ p.2.entry_type.typeName,
          (testImg2.drop p.2.flash_addr).take p.2.size)) ∧
    [("00000345_MAIN_CODE", List.replicate 0x80 0xaa)].map Prod.fst =
      (([(0x4020, entry2)].filter fun p => p.2.entry_type.is_code).map
        fun p => hex8 p.2.load_address ++ "_" ++ p.2.entry_type.typeName) :=
  ⟨(c9_dump_file_names testImg2 [(0x4020, entry2)] read_itoc_testImg2).1
      [("00000100_MAIN_CODE", List.replicate 0x88 0xaa)] dump_sections_testImg2,
    (c9_dump_file_names testImg2 [(0x4020, entry2)] read_itoc_testImg2).2
      [("00000345_MAIN_CODE", List.replicate 0x80 0xaa)] dump_code_testImg2⟩

end Mlx5fw
